import Mathlib

/-!
Shallow embedding of `src/finn/core/onnx_exec.py` (graph-execution engine of
the FINN repository): data model, node dispatch, single-operator isolation
with name-based output reconciliation, input binding, execution-mode
selection, and output projection.  Python `dict`s are modelled as
association lists with unique-key update semantics; numpy arrays as buffers
carrying a shape and flat integer data; raised exceptions as `Except`
errors.  External collaborators (onnxruntime, the custom-op registry,
remote/rtlsim offload, ModelWrapper) are parameters of an `Env` record,
modelled from the spec at their interface boundary.
-/

namespace Finn

/-- A tensor shape: the tuple `numpy.ndarray.shape`. -/
abbrev Shape := List Nat

/-- A tensor buffer: a shape together with flat element data
(element datatype is irrelevant to the execution engine). -/
structure Buffer where
  shape : Shape
  data : List Int
deriving DecidableEq, Repr

/-- An ONNX `ValueInfoProto`: a declared tensor name with its shape. -/
structure ValueInfo where
  name : String
  shape : Shape
deriving DecidableEq, Repr

/-- An ONNX `NodeProto`: operator tag, domain, ordered input and output
tensor names, and the "model" attribute used by partition nodes
(the path handed to the graph-loading collaborator). -/
structure Node where
  op_type : String
  domain : String
  input : List String
  output : List String
  modelAttr : String
deriving DecidableEq, Repr

/-- An ONNX `GraphProto`: ordered node list plus declared inputs, outputs
and intermediate-tensor declarations (value-info). -/
structure Graph where
  node : List Node
  input : List ValueInfo
  output : List ValueInfo
  value_info : List ValueInfo
deriving DecidableEq, Repr

/-- A `ModelWrapper`-wrapped model: its graph, the "exec_mode" metadata
property (`get_metadata_prop` returns `none` when unset), and the result
of `check_all_tensor_shapes_specified`.  The latter two accessors live in
`finn.core.modelwrapper`, which is not part of this repository snapshot;
they are modelled from the spec (Execution Mode flag, §3; and the
IncompleteSpecification check, §7). -/
structure Model where
  graph : Graph
  exec_mode : Option String
  shapes_specified : Bool
deriving DecidableEq, Repr

/-- Association-list entries of a Python `dict` keyed by tensor name. -/
abbrev Entries := List (String × Buffer)

/-- Dict lookup on entries: `d[n]` / `n in d`. -/
def lookupEntries : Entries → String → Option Buffer
  | [], _ => none
  | (m, v) :: rest, n => if m = n then some v else lookupEntries rest n

/-- Dict assignment on entries: `d[n] = v` overwrites an existing key in
place and otherwise appends (Python insertion order). -/
def setEntries : Entries → String → Buffer → Entries
  | [], n, v => [(n, v)]
  | (m, w) :: rest, n, v =>
    if m = n then (n, v) :: rest else (m, w) :: setEntries rest n v

/-- A tensor context / input dict: a Python `dict` of name-to-buffer. -/
structure Ctx where
  entries : Entries
deriving DecidableEq, Repr

/-- `c[n]` (as `Option`): `some` when the key is present. -/
def Ctx.lookup (c : Ctx) (n : String) : Option Buffer :=
  lookupEntries c.entries n

/-- `c[n] = v`. -/
def Ctx.set (c : Ctx) (n : String) (v : Buffer) : Ctx :=
  ⟨setEntries c.entries n v⟩

/-- `c.keys()`. -/
def Ctx.keys (c : Ctx) : List String :=
  c.entries.map Prod.fst

/-- `c.update(other)`: assign every entry of `other` into `c`, in order. -/
def Ctx.update (c other : Ctx) : Ctx :=
  other.entries.foldl (fun a p => a.set p.1 p.2) c

/-- The exceptions the engine can raise.  `attributeError` models the
`AttributeError` raised at `onnx_exec.py:105` when the shape-mismatch
message evaluates `output_list[list_ind].shape.shape` (a tuple has no
`.shape` attribute), so that error carries neither shape.
`nameError` models `list_ind` being referenced before assignment at
`onnx_exec.py:100`.  `unknownExecMode` carries no payload because the
message at `onnx_exec.py:167` is a fixed string that does not mention the
offending value.  `outOfFuel` is an artefact of bounding the partition
recursion depth in the embedding. -/
inductive Err where
  | shapeMismatchInput (name : String) (ctxShape inShape : Shape)
  | attributeError
  | nameError
  | indexError
  | keyError (name : String)
  | unspecifiedShapes
  | unknownExecMode
  | customOpError (msg : String)
  | outOfFuel
deriving DecidableEq, Repr

/-- Modelled from the spec (§6, external interfaces): the collaborators the
engine invokes but does not implement.  `run` is the generic onnxruntime
backend: given the constructed single-node sub-graph and a name-to-buffer
input dict it returns an ordered list of output buffers.  `customExec` is
`finn.core.execute_custom_node.execute_custom_node` (registry lookup plus
side-effecting handler; lookup failure propagates as an error).
`remoteExec` and `rtlsimExec` populate the context in one call.
`loadModel` is the graph-loading collaborator turning a partition node's
"model" attribute into a loaded model. -/
structure Env where
  run : Graph → Ctx → List Buffer
  customExec : Node → Ctx → Graph → Except Err Ctx
  remoteExec : Model → Ctx → Ctx
  rtlsimExec : Model → Ctx → Ctx
  loadModel : String → Model

/-- An all-zero buffer of the given shape. -/
def zeroBuffer (s : Shape) : Buffer :=
  ⟨s, List.replicate s.prod 0⟩

/-- Modelled from the spec: `ModelWrapper.make_empty_exec_context` is not
part of this repository snapshot.  Spec §4.1: allocate a zero-valued buffer
for every tensor the graph declares (inputs, value-info, outputs), with the
declared shape. -/
def makeEmptyExecContext (model : Model) : Ctx :=
  (model.graph.input ++ model.graph.value_info ++ model.graph.output).foldl
    (fun c vi => c.set vi.name (zeroBuffer vi.shape)) ⟨[]⟩

/-- The input-binding loop of `execute_onnx` (`onnx_exec.py:133-147`): for
each provided input in order, if its name is present in the execution
context then overwrite on exact shape match and raise on mismatch
(the message formats the context shape first, then the provided shape);
a name absent from the context is silently skipped (the `raise` is
commented out in the source). -/
def bindInputs (execution_context : Ctx) (input_dict : Entries) : Except Err Ctx :=
  match input_dict with
  | [] => .ok execution_context
  | (inp_name, v) :: rest =>
    match execution_context.lookup inp_name with
    | some cur =>
      if cur.shape = v.shape then
        bindInputs (execution_context.set inp_name v) rest
      else
        .error (.shapeMismatchInput inp_name cur.shape v.shape)
    | none => bindInputs execution_context rest

/-- `node_inputs` of the generic path (`onnx_exec.py:68-71`): declarations
from the owning graph's inputs, then value-info, whose name appears in the
node's input list. -/
def nodeInputs (node : Node) (graph : Graph) : List ValueInfo :=
  (graph.input.filter (fun x => node.input.contains x.name))
  ++ (graph.value_info.filter (fun x => node.input.contains x.name))

/-- `node_outputs` of the generic path (`onnx_exec.py:72-75`): declarations
from the owning graph's outputs, then value-info, whose name appears in the
node's output list. -/
def nodeOutputs (node : Node) (graph : Graph) : List ValueInfo :=
  (graph.output.filter (fun x => node.output.contains x.name))
  ++ (graph.value_info.filter (fun x => node.output.contains x.name))

/-- The local `input_dict` built at `onnx_exec.py:83-85`:
`input_dict[inp] = context[inp]` for each node input in order
(`KeyError` when the context lacks the name). -/
def buildInputDict (inputs : List String) (context : Ctx) (acc : Ctx) : Except Err Ctx :=
  match inputs with
  | [] => .ok acc
  | inp :: rest =>
    match context.lookup inp with
    | none => .error (.keyError inp)
    | some v => buildInputDict rest context (acc.set inp v)

/-- The inner reconciliation scan (`onnx_exec.py:95-97`): iterate over all
of `node_outputs`, assigning `list_ind = i` at every index whose declared
name equals `outp`; when no index matches, the previously assigned value
(if any) is kept. -/
def findLastIdxAux (vis : List ValueInfo) (name : String) (base : Nat)
    (prev : Option Nat) : Option Nat :=
  match vis with
  | [] => prev
  | v :: rest =>
    findLastIdxAux rest name (base + 1) (if v.name = name then some base else prev)

/-- The inner scan started at index `0` with the incoming `list_ind`. -/
def findLastIdx (vis : List ValueInfo) (name : String) (prev : Option Nat) : Option Nat :=
  findLastIdxAux vis name 0 prev

/-- The outer reconciliation loop (`onnx_exec.py:90-109`): for each declared
node output name in order, rescan `node_outputs` for its index, then store
`output_list[list_ind]` into the context slot of that name after comparing
shapes.  Faithful failure modes: an unassigned `list_ind` is a `NameError`;
an out-of-range index an `IndexError`; a missing context key a `KeyError`;
and the shape-mismatch branch raises `AttributeError` while formatting its
message (see `Err.attributeError`). -/
def reconcileOutputs (node_outputs : List ValueInfo) (output_list : List Buffer)
    (outputs : List String) (context : Ctx) (list_ind : Option Nat) : Except Err Ctx :=
  match outputs with
  | [] => .ok context
  | outp :: rest =>
    match findLastIdx node_outputs outp list_ind with
    | none => .error .nameError
    | some li =>
      match output_list[li]? with
      | none => .error .indexError
      | some buf =>
        match context.lookup outp with
        | none => .error (.keyError outp)
        | some cbuf =>
          if buf.shape = cbuf.shape then
            reconcileOutputs node_outputs output_list rest (context.set outp buf) (some li)
          else
            .error .attributeError

/-- The minimal standalone sub-graph the Isolator hands to the backend
(the `helper.make_graph` call at `onnx_exec.py:76-81`; `value_info`
defaults to empty). -/
def singleNodeGraph (node : Node) (graph : Graph) : Graph :=
  { node := [node], input := nodeInputs node graph,
    output := nodeOutputs node graph, value_info := [] }

/-- The generic-backend path of `execute_node` (`onnx_exec.py:59-109`):
construct the minimal single-node sub-graph, build the local input dict
from the context, run the backend, and reconcile the returned ordered
buffer list into the context by declared output name. -/
def executeGeneric (env : Env) (node : Node) (context : Ctx) (graph : Graph) :
    Except Err Ctx :=
  let node_outputs := nodeOutputs node graph
  let node_graph := singleNodeGraph node graph
  match buildInputDict node.input context ⟨[]⟩ with
  | .error e => .error e
  | .ok input_dict =>
    let output_list := env.run node_graph input_dict
    reconcileOutputs node_outputs output_list node.output context none

/-- The partition path of `execute_node` (`onnx_exec.py:49-53`): load the
nested model named by the node's "model" attribute, execute it recursively
with the current context as the input dict and full-context return, and
merge the returned dict into the current context via `dict.update`.
`recur` is the recursive `execute_onnx` call; its second component is the
nested call's input dict after the call (the alias of our context),
threaded explicitly because Python passes the dict by reference. -/
def executePartition (recur : Model → Ctx → Bool → (Except Err Ctx) × Ctx)
    (env : Env) (node : Node) (context : Ctx) : Except Err Ctx :=
  let model := env.loadModel node.modelAttr
  let r := recur model context true
  match r.1 with
  | .error e => .error e
  | .ok ret => .ok ((r.2).update ret)

/-- `execute_node` (`onnx_exec.py:43-109`), parametric in the recursive
`execute_onnx` call: partition marker first (regardless of domain), then
the custom "finn" domain, else the generic-backend path. -/
def executeNodeWith (recur : Model → Ctx → Bool → (Except Err Ctx) × Ctx)
    (env : Env) (node : Node) (context : Ctx) (graph : Graph) : Except Err Ctx :=
  if node.op_type = "StreamingDataflowPartition" then
    executePartition recur env node context
  else if node.domain = "finn" then
    env.customExec node context graph
  else
    executeGeneric env node context graph

/-- The node-by-node loop of `execute_onnx` (`onnx_exec.py:158-159`):
walk the node list in given order, mutating the context; the first raised
error aborts the walk. -/
def runNodes (recur : Model → Ctx → Bool → (Except Err Ctx) × Ctx)
    (env : Env) (graph : Graph) : List Node → Ctx → Except Err Ctx
  | [], ctx => .ok ctx
  | node :: rest, ctx =>
    match executeNodeWith recur env node ctx graph with
    | .error e => .error e
    | .ok ctx' => runNodes recur env graph rest ctx'

/-- The output projection of `execute_onnx` (`onnx_exec.py:177-181`):
`output_dict[out_tensor.name] = execution_context[out_tensor.name]` for
each declared graph output in order (`KeyError` when absent). -/
def projectOutputs (outputs : List ValueInfo) (ec : Ctx) (acc : Ctx) : Except Err Ctx :=
  match outputs with
  | [] => .ok acc
  | vi :: rest =>
    match ec.lookup vi.name with
    | none => .error (.keyError vi.name)
    | some v => projectOutputs rest ec (acc.set vi.name v)

/-- The tail of `execute_onnx` (`onnx_exec.py:173-181`): return the full
execution context when requested, else the projection onto the graph's
declared outputs. -/
def finishExec (graph : Graph) (return_full_exec_context : Bool) (ec : Ctx) :
    Except Err Ctx :=
  if return_full_exec_context then .ok ec
  else projectOutputs graph.output ec ⟨[]⟩

/-- The execution-mode dispatch of `execute_onnx` (`onnx_exec.py:149-171`):
the "exec_mode" metadata flag is read once; unset or empty selects the
node-by-node walk, "remote_pynq" and "rtlsim" each hand the model and the
bound context to their collaborator in one call, and any other value is
the fatal unknown-mode error (whose fixed message does not mention the
offending value).  `recur` is the recursive `execute_onnx` used by
partition nodes inside the walk. -/
def selectStrategy (recur : Model → Ctx → Bool → (Except Err Ctx) × Ctx)
    (env : Env) (model : Model) (ec0 : Ctx) : Except Err Ctx :=
  match model.exec_mode with
  | none => runNodes recur env model.graph model.graph.node ec0
  | some m =>
    if m = "" then runNodes recur env model.graph model.graph.node ec0
    else if m = "remote_pynq" then .ok (env.remoteExec model ec0)
    else if m = "rtlsim" then .ok (env.rtlsimExec model ec0)
    else .error .unknownExecMode

/-- `execute_onnx` (`onnx_exec.py:112-181`), with a fuel bound on the
partition recursion depth.  Returns the call's result together with the
caller-visible state of the `input_dict` argument after the call (threaded
explicitly, since Python passes the dict by reference and every assignment
in the source targets `execution_context`, never `input_dict`).  Control
flow: check shape completeness, allocate the empty execution context, bind
provided inputs, read the "exec_mode" flag once and select the strategy,
then project or return the full context. -/
def executeOnnx (env : Env) : Nat → Model → Ctx → Bool → (Except Err Ctx) × Ctx
  | 0 => fun _ input_dict _ => (.error .outOfFuel, input_dict)
  | Nat.succ fuel => fun model input_dict return_full_exec_context =>
    if model.shapes_specified = false then (.error .unspecifiedShapes, input_dict)
    else
      let graph := model.graph
      let execution_context := makeEmptyExecContext model
      match bindInputs execution_context input_dict.entries with
      | .error e => (.error e, input_dict)
      | .ok ec0 =>
        match selectStrategy (executeOnnx env fuel) env model ec0 with
        | .error e => (.error e, input_dict)
        | .ok final => (finishExec graph return_full_exec_context final, input_dict)

/-- `execute_node` at a given partition-recursion depth. -/
def executeNode (env : Env) (fuel : Nat) (node : Node) (context : Ctx)
    (graph : Graph) : Except Err Ctx :=
  executeNodeWith (executeOnnx env fuel) env node context graph

/-- Fixture: a nested model for partition tests, declaring only the
intermediate tensor `t_internal`. -/
def nestedModelFix : Model :=
  ⟨⟨[], [], [], [⟨"t_internal", [1]⟩]⟩, none, true⟩

/-- Fixture: an environment whose backend returns two buffers in the order
of the constructed sub-graph's outputs (which is reversed relative to the
node's declared output order in `nodeFix`). -/
def envFix : Env :=
  { run := fun _ _ => [⟨[1], [7]⟩, ⟨[2], [10, 20]⟩]
    customExec := fun _ c _ => .ok c
    remoteExec := fun _ c => c
    rtlsimExec := fun _ c => c
    loadModel := fun _ => nestedModelFix }

/-- Fixture: a backend returning a single buffer of shape `[3]`. -/
def envFix3 : Env :=
  { envFix with run := fun _ _ => [⟨[3], [9, 9, 9]⟩] }

/-- Fixture: a backend returning a single buffer of shape `[2]`. -/
def envFix9 : Env :=
  { envFix with run := fun _ _ => [⟨[2], [10, 20]⟩] }

/-- Fixture: a graph declaring input `x` and outputs `b`, `a` (in that
order, so `nodeOutputs` lists `b` before `a`). -/
def graphFix : Graph :=
  ⟨[], [⟨"x", [2]⟩], [⟨"b", [1]⟩, ⟨"a", [2]⟩], []⟩

/-- Fixture: a two-output node declaring its outputs in the order
`a`, `b` (reversed relative to `graphFix`'s output declarations). -/
def nodeFix : Node := ⟨"MyOp", "", ["x"], ["a", "b"], ""⟩

/-- Fixture: a context carrying `x` and zero-initialised `a`, `b`. -/
def ctxFix : Ctx :=
  ⟨[("x", ⟨[2], [1, 2]⟩), ("a", zeroBuffer [2]), ("b", zeroBuffer [1])]⟩

/-- Fixture: a single-output node of shape-`[2]` output `a`. -/
def node3 : Node := ⟨"MyOp", "", ["x"], ["a"], ""⟩

/-- Fixture: a node whose declared output `w` has no declaration among the
owning graph's outputs or value-info. -/
def node9a : Node := ⟨"MyOp", "", ["x"], ["w"], ""⟩

/-- Fixture: a node whose second declared output `y` is declared only as a
graph input, so it is in the context but absent from `nodeOutputs`. -/
def node9b : Node := ⟨"MyOp", "", ["x"], ["a", "y"], ""⟩

/-- Fixture: `graphFix` extended with a second input `y`. -/
def graphFix9 : Graph :=
  ⟨[], [⟨"x", [2]⟩, ⟨"y", [2]⟩], [⟨"b", [1]⟩, ⟨"a", [2]⟩], []⟩

/-- Fixture: a context for `graphFix9`. -/
def ctx9 : Ctx :=
  ⟨[("x", ⟨[2], [1, 2]⟩), ("y", zeroBuffer [2]),
    ("a", zeroBuffer [2]), ("b", zeroBuffer [1])]⟩

/-- Fixture: a partition node (with the custom domain set, to witness that
the partition branch takes precedence over the domain test). -/
def partNodeFix : Node :=
  ⟨"StreamingDataflowPartition", "finn", [], ["out"], "p"⟩

/-- Fixture: a custom-domain node. -/
def customNodeFix : Node := ⟨"Im2Col", "finn", ["x"], ["a"], ""⟩

/-- Fixture: the caller's context for the partition test. -/
def ctx2 : Ctx := ⟨[("x", ⟨[2], [1, 2]⟩)]⟩

/-- Fixture: the nested execution's full context for `nestedModelFix`. -/
def ret2 : Ctx := ⟨[("t_internal", zeroBuffer [1])]⟩

/-- Fixture: the local backend input dict built from `ctxFix` for a node
reading `x`. -/
def inputDictFix : Ctx := ⟨[("x", ⟨[2], [1, 2]⟩)]⟩

/-- Fixture: the context after the reversed-backend reconciliation test. -/
def ctx1res : Ctx :=
  ⟨[("x", ⟨[2], [1, 2]⟩), ("a", ⟨[2], [10, 20]⟩), ("b", ⟨[1], [7]⟩)]⟩

/-- Fixture: the context after the stale-index reconciliation test. -/
def ctx9res : Ctx :=
  ⟨[("x", ⟨[2], [1, 2]⟩), ("y", ⟨[2], [10, 20]⟩),
    ("a", ⟨[2], [10, 20]⟩), ("b", zeroBuffer [1])]⟩

/-- Fixture: a trivial model carrying only an execution-mode flag. -/
def modelMode (m : Option String) : Model := ⟨⟨[], [], [], []⟩, m, true⟩

/-- Fixture: a model declaring one input `a` of shape `[2]`. -/
def model4 : Model := ⟨⟨[], [⟨"a", [2]⟩], [], []⟩, none, true⟩

/-- Fixture: a model with input `x` and declared output `o`. -/
def model7 : Model := ⟨⟨[], [⟨"x", [1]⟩], [⟨"o", [1]⟩], []⟩, none, true⟩

instance : DecidableEq (Except Err Ctx) := fun x y =>
  match x, y with
  | .ok a, .ok b => decidable_of_iff (a = b) (by simp)
  | .error a, .error b => decidable_of_iff (a = b) (by simp)
  | .ok _, .error _ => isFalse (by simp)
  | .error _, .ok _ => isFalse (by simp)

theorem lookupEntries_set_self (es : Entries) (n : String) (v : Buffer) :
    lookupEntries (setEntries es n v) n = some v := by
  induction es with
  | nil => simp [setEntries, lookupEntries]
  | cons p rest ih =>
    obtain ⟨m, w⟩ := p
    by_cases h : m = n
    · simp [setEntries, h, lookupEntries]
    · simp [setEntries, h, lookupEntries, ih]

theorem lookupEntries_set_ne (es : Entries) (n m : String) (v : Buffer)
    (h : m ≠ n) : lookupEntries (setEntries es n v) m = lookupEntries es m := by
  induction es with
  | nil => simp [setEntries, lookupEntries, Ne.symm h]
  | cons p rest ih =>
    obtain ⟨k, w⟩ := p
    by_cases hk : k = n
    · simp [setEntries, hk, lookupEntries, Ne.symm h]
    · simp only [setEntries, if_neg hk, lookupEntries]
      by_cases hm : k = m
      · simp [hm]
      · simp [hm, ih]

theorem mem_map_fst_setEntries (es : Entries) (n : String) (v : Buffer)
    (m : String) :
    m ∈ (setEntries es n v).map Prod.fst ↔ m ∈ es.map Prod.fst ∨ m = n := by
  induction es with
  | nil => simp [setEntries]
  | cons p rest ih =>
    obtain ⟨k, w⟩ := p
    by_cases hk : k = n
    · subst hk
      simp [setEntries]
      tauto
    · simp [setEntries, hk, ih]
      tauto

theorem Ctx.lookup_set_self (c : Ctx) (n : String) (v : Buffer) :
    (c.set n v).lookup n = some v :=
  lookupEntries_set_self c.entries n v

theorem Ctx.lookup_set_ne (c : Ctx) (n m : String) (v : Buffer) (h : m ≠ n) :
    (c.set n v).lookup m = c.lookup m :=
  lookupEntries_set_ne c.entries n m v h

theorem Ctx.mem_keys_set (c : Ctx) (n : String) (v : Buffer) (m : String) :
    m ∈ (c.set n v).keys ↔ m ∈ c.keys ∨ m = n :=
  mem_map_fst_setEntries c.entries n v m

theorem foldl_set_lookup_not_mem (l : Entries) :
    ∀ (c : Ctx) (n : String), (∀ p ∈ l, p.1 ≠ n) →
      (l.foldl (fun a p => a.set p.1 p.2) c).lookup n = c.lookup n := by
  induction l with
  | nil => intro c n _; rfl
  | cons p rest ih =>
    intro c n h
    have hp : p.1 ≠ n := h p (List.mem_cons_self p rest)
    have hrest : ∀ q ∈ rest, q.1 ≠ n := fun q hq => h q (List.mem_cons_of_mem p hq)
    simp only [List.foldl_cons]
    rw [ih (c.set p.1 p.2) n hrest, Ctx.lookup_set_ne c p.1 n p.2 (fun hh => hp hh.symm)]

theorem foldl_set_mem_keys (l : Entries) :
    ∀ (c : Ctx) (n : String),
      n ∈ ((l.foldl (fun a p => a.set p.1 p.2) c)).keys →
      n ∈ c.keys ∨ n ∈ l.map Prod.fst := by
  induction l with
  | nil => intro c n h; exact Or.inl h
  | cons p rest ih =>
    intro c n h
    simp only [List.foldl_cons] at h
    rcases ih (c.set p.1 p.2) n h with h1 | h2
    · rcases (Ctx.mem_keys_set c p.1 p.2 n).mp h1 with h3 | h4
      · exact Or.inl h3
      · exact Or.inr (by simp [h4])
    · exact Or.inr (by simp [h2])

theorem Ctx.lookup_update_not_mem (c other : Ctx) (n : String)
    (h : n ∉ other.keys) : (c.update other).lookup n = c.lookup n := by
  apply foldl_set_lookup_not_mem
  intro p hp hpn
  exact h (List.mem_map.mpr ⟨p, hp, hpn⟩)

theorem Ctx.mem_keys_update (c other : Ctx) (n : String)
    (h : n ∈ (c.update other).keys) : n ∈ c.keys ∨ n ∈ other.keys :=
  foldl_set_mem_keys other.entries c n h

theorem findLastIdxAux_no_match (n : String) (vis : List ValueInfo) :
    ∀ (base : Nat) (prev : Option Nat), (∀ vi ∈ vis, vi.name ≠ n) →
      findLastIdxAux vis n base prev = prev := by
  induction vis with
  | nil => intro base prev _; rfl
  | cons v rest ih =>
    intro base prev h
    have hv : v.name ≠ n := h v (List.mem_cons_self v rest)
    have hrest : ∀ vi ∈ rest, vi.name ≠ n := fun vi hvi => h vi (List.mem_cons_of_mem v hvi)
    simp only [findLastIdxAux, if_neg hv]
    exact ih (base + 1) prev hrest

theorem findLastIdxAux_unique (n : String) (vis : List ValueInfo) :
    ∀ (base : Nat) (prev : Option Nat) (i : Nat) (vi : ValueInfo),
      vis[i]? = some vi → vi.name = n →
      (∀ j vj, vis[j]? = some vj → vj.name = n → j = i) →
      findLastIdxAux vis n base prev = some (base + i) := by
  induction vis with
  | nil => intro base prev i vi hi _ _; simp at hi
  | cons v rest ih =>
    intro base prev i vi hi hn huniq
    by_cases hv : v.name = n
    · have h0 : i = 0 := (huniq 0 v (by simp) hv).symm
      subst h0
      have hrest : ∀ w ∈ rest, w.name ≠ n := by
        intro w hw hwn
        obtain ⟨j, hj⟩ := List.mem_iff_getElem?.mp hw
        have hj1 : (v :: rest)[j + 1]? = some w := by simpa using hj
        have := huniq (j + 1) w hj1 hwn
        omega
      simp only [findLastIdxAux, if_pos hv]
      rw [findLastIdxAux_no_match n rest (base + 1) (some base) hrest]
      simp
    · have hi0 : i ≠ 0 := by
        intro h0
        subst h0
        simp only [List.getElem?_cons_zero] at hi
        cases hi
        exact hv hn
      obtain ⟨i', rfl⟩ : ∃ i', i = i' + 1 := ⟨i - 1, by omega⟩
      have hi' : rest[i']? = some vi := by simpa using hi
      have huniq' : ∀ j vj, rest[j]? = some vj → vj.name = n → j = i' := by
        intro j vj hj hjn
        have hj1 : (v :: rest)[j + 1]? = some vj := by simpa using hj
        have := huniq (j + 1) vj hj1 hjn
        omega
      simp only [findLastIdxAux, if_neg hv]
      rw [ih (base + 1) prev i' vi hi' hn huniq']
      congr 1
      omega

theorem findLastIdx_unique (n : String) (vis : List ValueInfo)
    (prev : Option Nat) (i : Nat) (vi : ValueInfo)
    (hi : vis[i]? = some vi) (hn : vi.name = n)
    (huniq : ∀ j vj, vis[j]? = some vj → vj.name = n → j = i) :
    findLastIdx vis n prev = some i := by
  unfold findLastIdx
  rw [findLastIdxAux_unique n vis 0 prev i vi hi hn huniq]
  simp

/-- In a declaration list with pairwise-distinct names, the index matching
a given name is unique. -/
theorem unique_idx_of_nodup (nouts : List ValueInfo)
    (hnd : (nouts.map ValueInfo.name).Nodup) (i : Nat) (vi : ValueInfo)
    (hi : nouts[i]? = some vi) :
    ∀ j vj, nouts[j]? = some vj → vj.name = vi.name → j = i := by
  intro j vj hj hjn
  have hjl : j < nouts.length := by
    by_contra hc
    rw [List.getElem?_eq_none (by omega)] at hj
    cases hj
  have hjl' : j < (nouts.map ValueInfo.name).length := by simpa using hjl
  apply List.getElem?_inj hjl' hnd
  rw [List.getElem?_map, List.getElem?_map, hi, hj]
  simp [hjn]

/-- After a successful reconciliation pass, the context slot of a declared
output name whose unique match among the sub-graph's output declarations is
index `i` holds the backend's buffer at position `i`; names not among the
processed outputs keep their incoming buffer. -/
theorem reconcileOutputs_lookup (nouts : List ValueInfo) (olist : List Buffer)
    (n : String) (i : Nat) (vi : ValueInfo)
    (hi : nouts[i]? = some vi) (hn : vi.name = n)
    (huniq : ∀ j vj, nouts[j]? = some vj → vj.name = n → j = i) :
    ∀ (outputs : List String) (ctx : Ctx) (prev : Option Nat) (ctx' : Ctx),
      reconcileOutputs nouts olist outputs ctx prev = .ok ctx' →
      ((n ∈ outputs → ctx'.lookup n = olist[i]?) ∧
       (n ∉ outputs → ctx'.lookup n = ctx.lookup n)) := by
  intro outputs
  induction outputs with
  | nil =>
    intro ctx prev ctx' h
    simp only [reconcileOutputs] at h
    cases h
    constructor
    · intro hmem; simp at hmem
    · intro _; rfl
  | cons outp rest ih =>
    intro ctx prev ctx' h
    simp only [reconcileOutputs] at h
    cases hf : findLastIdx nouts outp prev with
    | none => simp only [hf] at h; exact Except.noConfusion h
    | some li =>
      simp only [hf] at h
      cases hg : olist[li]? with
      | none => simp only [hg] at h; exact Except.noConfusion h
      | some buf =>
        simp only [hg] at h
        cases hc : ctx.lookup outp with
        | none => simp only [hc] at h; exact Except.noConfusion h
        | some cbuf =>
          simp only [hc] at h
          by_cases hsh : buf.shape = cbuf.shape
          · rw [if_pos hsh] at h
            by_cases houtp : outp = n
            · have hli : li = i := by
                have hu := findLastIdx_unique n nouts prev i vi hi hn huniq
                rw [houtp] at hf
                rw [hf] at hu
                cases hu
                rfl
              subst hli
              constructor
              · intro _
                by_cases hr : n ∈ rest
                · exact (ih _ _ _ h).1 hr
                · rw [(ih _ _ _ h).2 hr, houtp, Ctx.lookup_set_self, hg]
              · intro hnm
                rw [← houtp] at hnm
                exact absurd (List.mem_cons_self _ _) hnm
            · constructor
              · intro hmem
                have hr : n ∈ rest := by
                  rcases List.mem_cons.mp hmem with h1 | h2
                  · exact absurd h1.symm houtp
                  · exact h2
                exact (ih _ _ _ h).1 hr
              · intro hnm
                have hr : n ∉ rest := fun hx => hnm (List.mem_cons_of_mem _ hx)
                rw [(ih _ _ _ h).2 hr,
                  Ctx.lookup_set_ne ctx outp n buf (fun he => houtp he.symm)]
          · rw [if_neg hsh] at h
            cases h

/-- A provided input whose name the execution context lacks is skipped:
removing it from the input dict does not change the binding result. -/
theorem bindInputs_absent (n : String) (v : Buffer) :
    ∀ (l1 : Entries) (ec : Ctx) (l2 : Entries), ec.lookup n = none →
      bindInputs ec (l1 ++ (n, v) :: l2) = bindInputs ec (l1 ++ l2) := by
  intro l1
  induction l1 with
  | nil =>
    intro ec l2 h
    simp only [List.nil_append, bindInputs, h]
  | cons p l1' ih =>
    intro ec l2 h
    obtain ⟨m, w⟩ := p
    simp only [List.cons_append, bindInputs]
    cases hm : ec.lookup m with
    | none => exact ih ec l2 h
    | some cur =>
      by_cases hs : cur.shape = w.shape
      · simp only [hs, if_pos rfl]
        apply ih
        have hnm : n ≠ m := by
          intro he
          rw [he, hm] at h
          cases h
        rw [Ctx.lookup_set_ne ec m n w hnm]
        exact h
      · simp [hs]

/-- No assignment in the body of `execute_onnx` targets `input_dict`: the
threaded state of the caller's input dict after the call is the dict given. -/
theorem executeOnnx_snd (env : Env) (fuel : Nat) (model : Model) (inp : Ctx)
    (b : Bool) : (executeOnnx env fuel model inp b).2 = inp := by
  cases fuel with
  | zero => rfl
  | succ f =>
    simp only [executeOnnx]
    split
    · rfl
    · split
      · rfl
      · split
        · rfl
        · rfl

end Finn

namespace Finn

theorem projectOutputs_lookup (ec : Ctx) :
    ∀ (outs : List ValueInfo) (acc : Ctx) (out : Ctx),
      projectOutputs outs ec acc = .ok out →
      ∀ n, out.lookup n =
        if n ∈ outs.map ValueInfo.name then ec.lookup n else acc.lookup n := by
  intro outs
  induction outs with
  | nil =>
    intro acc out h n
    simp only [projectOutputs] at h
    cases h
    simp
  | cons vi rest ih =>
    intro acc out h n
    simp only [projectOutputs] at h
    cases hc : ec.lookup vi.name with
    | none => simp only [hc] at h; exact Except.noConfusion h
    | some v =>
      simp only [hc] at h
      have hIH := ih (acc.set vi.name v) out h n
      by_cases hr : n ∈ rest.map ValueInfo.name
      · rw [hIH, if_pos hr, if_pos (by simp [hr])]
      · rw [hIH, if_neg hr]
        by_cases hv : n = vi.name
        · rw [hv, Ctx.lookup_set_self, if_pos (by simp), ← hc]
        · rw [Ctx.lookup_set_ne acc vi.name n v hv, if_neg (by simp [hv, hr])]

/-- C1: in the generic-backend path, every declared node output receives
the backend buffer at the position of that name's unique match among the
constructed sub-graph's output declarations: reconciliation is by declared
output name, not by the position of the name in the node's own output
list, so a backend whose output order is any permutation of the node's
declared output order is reconciled correctly. -/
theorem C1_generic_output_reconciliation_by_name
    (env : Env) (node : Node) (context input_dict ctx' : Ctx) (graph : Graph)
    (i : Nat) (vi : ValueInfo) (n : String)
    (hnd : ((nodeOutputs node graph).map ValueInfo.name).Nodup)
    (hbld : buildInputDict node.input context ⟨[]⟩ = .ok input_dict)
    (hok : executeGeneric env node context graph = .ok ctx')
    (hi : (nodeOutputs node graph)[i]? = some vi) (hn : vi.name = n)
    (hmem : n ∈ node.output) :
    ctx'.lookup n = (env.run (singleNodeGraph node graph) input_dict)[i]? := by
  have huniq : ∀ j vj, (nodeOutputs node graph)[j]? = some vj → vj.name = n → j = i := by
    intro j vj hj hjn
    exact unique_idx_of_nodup (nodeOutputs node graph) hnd i vi hi j vj hj (by rw [hjn, hn])
  have hrec : reconcileOutputs (nodeOutputs node graph)
      (env.run (singleNodeGraph node graph) input_dict) node.output context none = .ok ctx' := by
    have h := hok
    simp only [executeGeneric, hbld] at h
    exact h
  exact (reconcileOutputs_lookup _ _ n i vi hi hn huniq node.output context none ctx' hrec).1 hmem

theorem C1_generic_output_reconciliation_by_name_witness :
    ((nodeOutputs nodeFix graphFix)[1]? = some ⟨"a", [2]⟩ ∧
      executeGeneric envFix nodeFix ctxFix graphFix = .ok ctx1res) ∧
    Ctx.lookup ctx1res "a" =
      (envFix.run (singleNodeGraph nodeFix graphFix) inputDictFix)[1]? :=
  ⟨⟨by decide, by decide⟩,
    C1_generic_output_reconciliation_by_name envFix nodeFix ctxFix inputDictFix
      ctx1res graphFix 1 ⟨"a", [2]⟩ "a" (by decide) (by decide) (by decide)
      (by decide) (by decide) (by decide)⟩

/-- C3: when the backend-returned buffer's shape disagrees with the
pre-allocated context shape, the call fails, but with the payload-free
`AttributeError` raised while the error message is being formatted
(`output_list[list_ind].shape.shape` at `onnx_exec.py:105`), not with a
shape-mismatch report carrying the two shapes.  Concrete failing input:
the backend returns a `[3]`-shaped buffer for output `a` declared `[2]`. -/
theorem C3_output_shape_mismatch_attribute_error :
    executeGeneric envFix3 node3 ctxFix graphFix = .error .attributeError := by
  decide

end Finn

namespace Finn

/-- C9: the generic-backend reconciliation is only well-defined when every
declared node output has a match among the sub-graph's output
declarations.  First conjunct: when the node's FIRST declared output has
no match, `list_ind` is never assigned and the step fails with the
unguarded `NameError`, not a reported shape or lookup error.  Second
conjunct: when a LATER declared output has no match, the index found for
the previous output is silently reused, so that output name receives the
backend buffer computed for the previous output's declaration slot and
the call still succeeds. -/
theorem C9_unmatched_output_reconciliation_hazard :
    (∀ (env : Env) (node : Node) (context input_dict : Ctx) (graph : Graph)
       (n0 : String) (rest : List String),
       node.output = n0 :: rest →
       (∀ vi ∈ nodeOutputs node graph, vi.name ≠ n0) →
       buildInputDict node.input context ⟨[]⟩ = .ok input_dict →
       executeGeneric env node context graph = .error .nameError) ∧
    (∀ (env : Env) (node : Node) (context input_dict ctx' : Ctx) (graph : Graph)
       (n1 n2 : String) (i : Nat) (vi : ValueInfo),
       node.output = [n1, n2] →
       (nodeOutputs node graph)[i]? = some vi → vi.name = n1 →
       ((nodeOutputs node graph).map ValueInfo.name).Nodup →
       (∀ vj ∈ nodeOutputs node graph, vj.name ≠ n2) →
       buildInputDict node.input context ⟨[]⟩ = .ok input_dict →
       executeGeneric env node context graph = .ok ctx' →
       ctx'.lookup n2 = (env.run (singleNodeGraph node graph) input_dict)[i]?) := by
  constructor
  · intro env node context input_dict graph n0 rest hout hnomatch hbld
    simp only [executeGeneric, hbld, hout, reconcileOutputs, findLastIdx,
      findLastIdxAux_no_match n0 (nodeOutputs node graph) 0 none hnomatch]
  · intro env node context input_dict ctx' graph n1 n2 i vi hout hi hn1 hnd hnomatch hbld hok
    have huniq : ∀ j vj, (nodeOutputs node graph)[j]? = some vj → vj.name = n1 → j = i := by
      intro j vj hj hjn
      exact unique_idx_of_nodup (nodeOutputs node graph) hnd i vi hi j vj hj (by rw [hjn, hn1])
    have hf1 : findLastIdx (nodeOutputs node graph) n1 none = some i :=
      findLastIdx_unique n1 (nodeOutputs node graph) none i vi hi hn1 huniq
    simp only [executeGeneric, hbld, hout] at hok
    simp only [reconcileOutputs, hf1] at hok
    cases hg : (env.run (singleNodeGraph node graph) input_dict)[i]? with
    | none => simp only [hg] at hok; exact Except.noConfusion hok
    | some buf =>
      simp only [hg] at hok
      cases hc1 : context.lookup n1 with
      | none => simp only [hc1] at hok; exact Except.noConfusion hok
      | some cbuf =>
        simp only [hc1] at hok
        by_cases hsh1 : buf.shape = cbuf.shape
        · rw [if_pos hsh1] at hok
          have hf2 : findLastIdx (nodeOutputs node graph) n2 (some i) = some i :=
            findLastIdxAux_no_match n2 (nodeOutputs node graph) 0 (some i) hnomatch
          simp only [reconcileOutputs, hf2, hg] at hok
          cases hc2 : (context.set n1 buf).lookup n2 with
          | none => simp only [hc2] at hok; exact Except.noConfusion hok
          | some cbuf2 =>
            simp only [hc2] at hok
            by_cases hsh2 : buf.shape = cbuf2.shape
            · rw [if_pos hsh2] at hok
              cases hok
              rw [Ctx.lookup_set_self]
            · rw [if_neg hsh2] at hok
              exact Except.noConfusion hok
        · rw [if_neg hsh1] at hok
          exact Except.noConfusion hok

theorem C9_unmatched_output_reconciliation_hazard_witness :
    ((∀ vi ∈ nodeOutputs node9a graphFix, vi.name ≠ "w") ∧
      executeGeneric envFix9 node9a ctxFix graphFix = .error .nameError) ∧
    (executeGeneric envFix9 node9b ctx9 graphFix9 = .ok ctx9res ∧
      Ctx.lookup ctx9res "y" =
        (envFix9.run (singleNodeGraph node9b graphFix9) inputDictFix)[0]?) :=
  ⟨⟨by decide,
    C9_unmatched_output_reconciliation_hazard.1 envFix9 node9a ctxFix
      inputDictFix graphFix "w" [] (by decide) (by decide) (by decide)⟩,
   ⟨by decide,
    C9_unmatched_output_reconciliation_hazard.2 envFix9 node9b ctx9
      inputDictFix ctx9res graphFix9 "a" "y" 0 ⟨"a", [2]⟩ (by decide)
      (by decide) (by decide) (by decide) (by decide) (by decide) (by decide)⟩⟩

end Finn

namespace Finn

/-- C2 fails as stated: executing a partition node merges the nested
execution's FULL context into the caller's context, so a tensor name the
partition node does not declare as an output (here the nested graph's
intermediate `t_internal`) is added to the caller's context. -/
theorem C2_partition_merge_counterexample :
    partNodeFix.output = ["out"] ∧
    Ctx.lookup ctx2 "t_internal" = none ∧
    "t_internal" ∉ partNodeFix.output ∧
    executeNode envFix 2 partNodeFix ctx2 graphFix =
      .ok ⟨[("x", ⟨[2], [1, 2]⟩), ("t_internal", zeroBuffer [1])]⟩ ∧
    Ctx.lookup ⟨[("x", ⟨[2], [1, 2]⟩), ("t_internal", zeroBuffer [1])]⟩ "t_internal" =
      some (zeroBuffer [1]) :=
  ⟨rfl, rfl, by decide, by decide, rfl⟩

/-- C2 amended: a partition node merges exactly the nested execution's
returned full context (which includes the nested graph's inputs and
intermediates, not only the partition node's declared outputs) into the
caller's context; caller entries at names outside that returned context
are unchanged, and only names of that returned context are added. -/
theorem C2_partition_merge_amended
    (env : Env) (fuel : Nat) (node : Node) (context : Ctx) (graph : Graph) (ret : Ctx)
    (hop : node.op_type = "StreamingDataflowPartition")
    (hnested : (executeOnnx env fuel (env.loadModel node.modelAttr) context true).1 = .ok ret) :
    executeNode env fuel node context graph = .ok (context.update ret) ∧
    (∀ n, n ∉ ret.keys → (context.update ret).lookup n = context.lookup n) ∧
    (∀ n, n ∈ (context.update ret).keys → n ∈ context.keys ∨ n ∈ ret.keys) := by
  refine ⟨?_, ?_, ?_⟩
  · simp only [executeNode, executeNodeWith, if_pos hop, executePartition, hnested,
      executeOnnx_snd]
  · intro n hn
    exact Ctx.lookup_update_not_mem context ret n hn
  · intro n hn
    exact Ctx.mem_keys_update context ret n hn

theorem C2_partition_merge_witness :
    (executeOnnx envFix 2 (envFix.loadModel partNodeFix.modelAttr) ctx2 true).1 = .ok ret2 ∧
    executeNode envFix 2 partNodeFix ctx2 graphFix = .ok (ctx2.update ret2) :=
  ⟨by decide,
    (C2_partition_merge_amended envFix 2 partNodeFix ctx2 graphFix ret2
      (by decide) (by decide)).1⟩

/-- C4: for a provided input whose name is present in the freshly
allocated execution context, an exactly matching shape overwrites the
context entry with the provided buffer itself, and a differing shape
aborts the top-level call with the shape-mismatch error naming the tensor
and carrying both shapes (the pre-allocated shape in the slot the message
labels "found", the provided shape in the slot labelled "expected"); the
provided value is never reshaped or truncated. -/
theorem C4_input_binding_shape_check
    (ec : Ctx) (n : String) (v cur : Buffer) (rest : Entries)
    (hl : ec.lookup n = some cur) :
    (cur.shape = v.shape →
      bindInputs ec ((n, v) :: rest) = bindInputs (ec.set n v) rest ∧
      (ec.set n v).lookup n = some v) ∧
    (cur.shape ≠ v.shape →
      bindInputs ec ((n, v) :: rest) = .error (.shapeMismatchInput n cur.shape v.shape) ∧
      ∀ (env : Env) (fuel : Nat) (model : Model) (input_dict : Ctx) (b : Bool),
        model.shapes_specified = true →
        makeEmptyExecContext model = ec →
        input_dict.entries = (n, v) :: rest →
        (executeOnnx env (fuel + 1) model input_dict b).1 =
          .error (.shapeMismatchInput n cur.shape v.shape)) := by
  constructor
  · intro hs
    refine ⟨?_, Ctx.lookup_set_self ec n v⟩
    simp only [bindInputs, hl, if_pos hs]
  · intro hs
    have hb : bindInputs ec ((n, v) :: rest) =
        .error (.shapeMismatchInput n cur.shape v.shape) := by
      simp only [bindInputs, hl, if_neg hs]
    refine ⟨hb, ?_⟩
    intro env fuel model input_dict b hspec hmk hent
    simp only [executeOnnx, hspec, Bool.true_eq_false, if_false]
    rw [hmk, hent, hb]

theorem C4_input_binding_shape_check_witness :
    (bindInputs ⟨[("a", zeroBuffer [2])]⟩ [("a", ⟨[2], [5, 6]⟩)] =
       bindInputs (Ctx.set ⟨[("a", zeroBuffer [2])]⟩ "a" ⟨[2], [5, 6]⟩) [] ∧
     Ctx.lookup (Ctx.set ⟨[("a", zeroBuffer [2])]⟩ "a" ⟨[2], [5, 6]⟩) "a" =
       some ⟨[2], [5, 6]⟩) ∧
    (executeOnnx envFix 1 model4 ⟨[("a", ⟨[3], [1, 2, 3]⟩)]⟩ false).1 =
      .error (.shapeMismatchInput "a" [2] [3]) :=
  ⟨(C4_input_binding_shape_check ⟨[("a", zeroBuffer [2])]⟩ "a" ⟨[2], [5, 6]⟩
      (zeroBuffer [2]) [] (by decide)).1 (by decide),
   ((C4_input_binding_shape_check ⟨[("a", zeroBuffer [2])]⟩ "a" ⟨[3], [1, 2, 3]⟩
      (zeroBuffer [2]) [] (by decide)).2 (by decide)).2 envFix 0 model4
      ⟨[("a", ⟨[3], [1, 2, 3]⟩)]⟩ false (by decide) (by decide) (by decide)⟩

/-- C5: node dispatch is the fixed three-branch decision table: partition
marker first (regardless of domain), then the custom "finn" domain, else
the generic-backend path; the three conditions are exhaustive, so no
other branch exists. -/
theorem C5_dispatch_decision_table
    (env : Env) (fuel : Nat) (node : Node) (context : Ctx) (graph : Graph) :
    (node.op_type = "StreamingDataflowPartition" →
      executeNode env fuel node context graph =
        executePartition (executeOnnx env fuel) env node context) ∧
    (node.op_type ≠ "StreamingDataflowPartition" → node.domain = "finn" →
      executeNode env fuel node context graph = env.customExec node context graph) ∧
    (node.op_type ≠ "StreamingDataflowPartition" → node.domain ≠ "finn" →
      executeNode env fuel node context graph = executeGeneric env node context graph) := by
  refine ⟨?_, ?_, ?_⟩
  · intro h
    simp only [executeNode, executeNodeWith, if_pos h]
  · intro h1 h2
    simp only [executeNode, executeNodeWith, if_neg h1, if_pos h2]
  · intro h1 h2
    simp only [executeNode, executeNodeWith, if_neg h1, if_neg h2]

theorem C5_dispatch_decision_table_witness :
    executeNode envFix 1 partNodeFix ctx2 graphFix =
      executePartition (executeOnnx envFix 1) envFix partNodeFix ctx2 ∧
    executeNode envFix 1 customNodeFix ctxFix graphFix =
      envFix.customExec customNodeFix ctxFix graphFix ∧
    executeNode envFix 1 nodeFix ctxFix graphFix =
      executeGeneric envFix nodeFix ctxFix graphFix :=
  ⟨(C5_dispatch_decision_table envFix 1 partNodeFix ctx2 graphFix).1 (by decide),
   (C5_dispatch_decision_table envFix 1 customNodeFix ctxFix graphFix).2.1
     (by decide) (by decide),
   (C5_dispatch_decision_table envFix 1 nodeFix ctxFix graphFix).2.2
     (by decide) (by decide)⟩

end Finn

namespace Finn

/-- C6 fails in one respect: an unrecognized execution-mode value is fatal,
but the raised error is a fixed message that does NOT report the offending
value — two models whose flags hold different unknown values fail with the
identical error. -/
theorem C6_unknown_mode_counterexample :
    modelMode (some "foo") ≠ modelMode (some "bar") ∧
    (executeOnnx envFix 1 (modelMode (some "foo")) ⟨[]⟩ false).1 =
      .error .unknownExecMode ∧
    (executeOnnx envFix 1 (modelMode (some "bar")) ⟨[]⟩ false).1 =
      .error .unknownExecMode ∧
    (executeOnnx envFix 1 (modelMode (some "foo")) ⟨[]⟩ false).1 =
      (executeOnnx envFix 1 (modelMode (some "bar")) ⟨[]⟩ false).1 :=
  ⟨by decide, by decide, by decide, by decide⟩

/-- C6 amended: the execution-mode flag is read once and selects exactly
one strategy — unset or empty runs the node-by-node walk over the node
sequence in given order; "remote_pynq" and "rtlsim" each hand model and
bound context to their collaborator in one call; any other value fails
with the fatal unknown-mode error, whose fixed message does not include
the offending value. -/
theorem C6_exec_mode_selection_amended
    (env : Env) (fuel : Nat) (model : Model) (input_dict : Ctx) (b : Bool) (ec : Ctx)
    (hspec : model.shapes_specified = true)
    (hb : bindInputs (makeEmptyExecContext model) input_dict.entries = .ok ec) :
    ((model.exec_mode = none ∨ model.exec_mode = some "") →
      (executeOnnx env (fuel + 1) model input_dict b).1 =
        Except.bind (runNodes (executeOnnx env fuel) env model.graph model.graph.node ec)
          (finishExec model.graph b)) ∧
    (model.exec_mode = some "remote_pynq" →
      (executeOnnx env (fuel + 1) model input_dict b).1 =
        finishExec model.graph b (env.remoteExec model ec)) ∧
    (model.exec_mode = some "rtlsim" →
      (executeOnnx env (fuel + 1) model input_dict b).1 =
        finishExec model.graph b (env.rtlsimExec model ec)) ∧
    (∀ m, model.exec_mode = some m → m ≠ "" → m ≠ "remote_pynq" → m ≠ "rtlsim" →
      (executeOnnx env (fuel + 1) model input_dict b).1 = .error .unknownExecMode) := by
  refine ⟨?_, ?_, ?_, ?_⟩
  · intro hmode
    simp only [executeOnnx, hspec, Bool.true_eq_false, if_false, hb]
    have hS : selectStrategy (executeOnnx env fuel) env model ec =
        runNodes (executeOnnx env fuel) env model.graph model.graph.node ec := by
      rcases hmode with h | h
      · simp only [selectStrategy, h]
      · simp [selectStrategy, h]
    rw [hS]
    cases hr : runNodes (executeOnnx env fuel) env model.graph model.graph.node ec with
    | error e => simp only [hr]; rfl
    | ok final => simp only [hr]; rfl
  · intro hmode
    simp only [executeOnnx, hspec, Bool.true_eq_false, if_false, hb]
    have hS : selectStrategy (executeOnnx env fuel) env model ec =
        .ok (env.remoteExec model ec) := by
      simp [selectStrategy, hmode]
    rw [hS]
  · intro hmode
    simp only [executeOnnx, hspec, Bool.true_eq_false, if_false, hb]
    have hS : selectStrategy (executeOnnx env fuel) env model ec =
        .ok (env.rtlsimExec model ec) := by
      simp [selectStrategy, hmode]
    rw [hS]
  · intro m hmode h1 h2 h3
    simp only [executeOnnx, hspec, Bool.true_eq_false, if_false, hb]
    have hS : selectStrategy (executeOnnx env fuel) env model ec =
        .error .unknownExecMode := by
      simp only [selectStrategy, hmode]
      rw [if_neg h1, if_neg h2, if_neg h3]
    rw [hS]

theorem C6_exec_mode_selection_amended_witness :
    (executeOnnx envFix 1 (modelMode none) ⟨[]⟩ false).1 =
      Except.bind (runNodes (executeOnnx envFix 0) envFix (modelMode none).graph
        (modelMode none).graph.node ⟨[]⟩) (finishExec (modelMode none).graph false) ∧
    (executeOnnx envFix 1 (modelMode (some "remote_pynq")) ⟨[]⟩ false).1 =
      finishExec (modelMode (some "remote_pynq")).graph false
        (envFix.remoteExec (modelMode (some "remote_pynq")) ⟨[]⟩) ∧
    (executeOnnx envFix 1 (modelMode (some "rtlsim")) ⟨[]⟩ false).1 =
      finishExec (modelMode (some "rtlsim")).graph false
        (envFix.rtlsimExec (modelMode (some "rtlsim")) ⟨[]⟩) ∧
    (executeOnnx envFix 1 (modelMode (some "foo")) ⟨[]⟩ false).1 =
      .error .unknownExecMode :=
  ⟨(C6_exec_mode_selection_amended envFix 0 (modelMode none) ⟨[]⟩ false ⟨[]⟩
      (by decide) (by decide)).1 (Or.inl rfl),
   (C6_exec_mode_selection_amended envFix 0 (modelMode (some "remote_pynq")) ⟨[]⟩ false ⟨[]⟩
      (by decide) (by decide)).2.1 rfl,
   (C6_exec_mode_selection_amended envFix 0 (modelMode (some "rtlsim")) ⟨[]⟩ false ⟨[]⟩
      (by decide) (by decide)).2.2.1 rfl,
   (C6_exec_mode_selection_amended envFix 0 (modelMode (some "foo")) ⟨[]⟩ false ⟨[]⟩
      (by decide) (by decide)).2.2.2 "foo" rfl (by decide) (by decide) (by decide)⟩

/-- C7: a successful non-full-context call returns exactly the projection
of the final execution context onto the graph's declared output names
(same execution, keyed by output name), while the full-context call
returns the entire execution context; the projection holds the final
context's buffer at every declared output name and nothing else. -/
theorem C7_output_projection
    (env : Env) (fuel : Nat) (model : Model) (inp : Ctx) :
    ((executeOnnx env fuel model inp false).1 =
      Except.bind ((executeOnnx env fuel model inp true).1)
        (fun ec => projectOutputs model.graph.output ec ⟨[]⟩)) ∧
    (∀ (ec out : Ctx), projectOutputs model.graph.output ec ⟨[]⟩ = .ok out →
      (∀ n, n ∈ model.graph.output.map ValueInfo.name → out.lookup n = ec.lookup n) ∧
      (∀ n, n ∉ model.graph.output.map ValueInfo.name → out.lookup n = none)) := by
  constructor
  · cases fuel with
    | zero => rfl
    | succ f =>
      simp only [executeOnnx]
      by_cases hsp : model.shapes_specified = false
      · simp [hsp]
        rfl
      · simp only [if_neg hsp]
        cases hB : bindInputs (makeEmptyExecContext model) inp.entries with
        | error e => simp only [hB]; rfl
        | ok ec0 =>
          simp only [hB]
          cases hS : selectStrategy (executeOnnx env f) env model ec0 with
          | error e => simp only [hS]; rfl
          | ok final => simp [hS, finishExec, Except.bind]
  · intro ec out h
    constructor
    · intro n hn
      rw [projectOutputs_lookup ec model.graph.output ⟨[]⟩ out h n, if_pos hn]
    · intro n hn
      rw [projectOutputs_lookup ec model.graph.output ⟨[]⟩ out h n, if_neg hn]
      rfl

theorem C7_output_projection_witness :
    ((executeOnnx envFix 1 model7 ⟨[]⟩ false).1 =
      Except.bind ((executeOnnx envFix 1 model7 ⟨[]⟩ true).1)
        (fun ec => projectOutputs model7.graph.output ec ⟨[]⟩)) ∧
    Ctx.lookup ⟨[("o", zeroBuffer [1])]⟩ "o" =
      Ctx.lookup ⟨[("x", zeroBuffer [1]), ("o", zeroBuffer [1])]⟩ "o" ∧
    Ctx.lookup ⟨[("o", zeroBuffer [1])]⟩ "x" = none :=
  ⟨(C7_output_projection envFix 1 model7 ⟨[]⟩).1,
   ((C7_output_projection envFix 1 model7 ⟨[]⟩).2
      ⟨[("x", zeroBuffer [1]), ("o", zeroBuffer [1])]⟩
      ⟨[("o", zeroBuffer [1])]⟩ (by decide)).1 "o" (by decide),
   ((C7_output_projection envFix 1 model7 ⟨[]⟩).2
      ⟨[("x", zeroBuffer [1]), ("o", zeroBuffer [1])]⟩
      ⟨[("o", zeroBuffer [1])]⟩ (by decide)).2 "x" (by decide)⟩

/-- C8: a provided input binding whose name is absent from the execution
context is silently ignored: no error arises from it and the entire
top-level result is identical to the result had that binding not been
supplied at all. -/
theorem C8_absent_input_binding_ignored
    (n : String) (v : Buffer) (l1 l2 : Entries) (ec : Ctx)
    (habs : ec.lookup n = none) :
    bindInputs ec (l1 ++ (n, v) :: l2) = bindInputs ec (l1 ++ l2) ∧
    ∀ (env : Env) (fuel : Nat) (model : Model) (b : Bool) (d1 d2 : Ctx),
      makeEmptyExecContext model = ec →
      d1.entries = l1 ++ (n, v) :: l2 → d2.entries = l1 ++ l2 →
      (executeOnnx env fuel model d1 b).1 = (executeOnnx env fuel model d2 b).1 := by
  have h1 := bindInputs_absent n v l1 ec l2 habs
  refine ⟨h1, ?_⟩
  intro env fuel model b d1 d2 hmk hd1 hd2
  cases fuel with
  | zero => rfl
  | succ f =>
    simp only [executeOnnx]
    by_cases hsp : model.shapes_specified = false
    · simp [hsp]
    · simp only [if_neg hsp]
      rw [hmk, hd1, hd2, h1]
      cases hB : bindInputs ec (l1 ++ l2) with
      | error e => simp only [hB]
      | ok ec0 =>
        simp only [hB]
        cases hS : selectStrategy (executeOnnx env f) env model ec0 with
        | error e => simp only [hS]
        | ok final => simp only [hS]

theorem C8_absent_input_binding_ignored_witness :
    ((makeEmptyExecContext model4).lookup "zzz" = none ∧
      bindInputs ⟨[("a", zeroBuffer [2])]⟩
        ([("zzz", ⟨[1], [42]⟩)] ++ [("a", ⟨[2], [5, 6]⟩)]) =
      bindInputs ⟨[("a", zeroBuffer [2])]⟩ ([] ++ [("a", ⟨[2], [5, 6]⟩)])) ∧
    (executeOnnx envFix 1 model4 ⟨[("zzz", ⟨[1], [42]⟩), ("a", ⟨[2], [5, 6]⟩)]⟩ false).1 =
      (executeOnnx envFix 1 model4 ⟨[("a", ⟨[2], [5, 6]⟩)]⟩ false).1 :=
  ⟨⟨by decide,
    (C8_absent_input_binding_ignored "zzz" ⟨[1], [42]⟩ []
      [("a", ⟨[2], [5, 6]⟩)] ⟨[("a", zeroBuffer [2])]⟩ (by decide)).1⟩,
   (C8_absent_input_binding_ignored "zzz" ⟨[1], [42]⟩ []
      [("a", ⟨[2], [5, 6]⟩)] ⟨[("a", zeroBuffer [2])]⟩ (by decide)).2
      envFix 1 model4 false ⟨[("zzz", ⟨[1], [42]⟩), ("a", ⟨[2], [5, 6]⟩)]⟩
      ⟨[("a", ⟨[2], [5, 6]⟩)]⟩ (by decide) (by decide) (by decide)⟩

/-- C10: a top-level execution never mutates the input-binding dict it is
given — whether it succeeds or fails, the threaded caller-visible state of
`input_dict` after the call equals the dict passed in — and a bound buffer
is stored into the execution context as the very buffer provided (the
assignment copies the reference, never a reshaped or converted value). -/
theorem C10_input_dict_preserved
    (env : Env) (fuel : Nat) (model : Model) (inp : Ctx) (b : Bool) :
    (executeOnnx env fuel model inp b).2 = inp ∧
    ∀ (ec : Ctx) (n : String) (v cur : Buffer) (rest : Entries),
      ec.lookup n = some cur → cur.shape = v.shape →
      bindInputs ec ((n, v) :: rest) = bindInputs (ec.set n v) rest ∧
      (ec.set n v).lookup n = some v := by
  constructor
  · exact executeOnnx_snd env fuel model inp b
  · intro ec n v cur rest hl hs
    refine ⟨?_, Ctx.lookup_set_self ec n v⟩
    simp only [bindInputs, hl, if_pos hs]

theorem C10_input_dict_preserved_witness :
    (executeOnnx envFix 1 model4 ⟨[("a", ⟨[2], [5, 6]⟩)]⟩ false).2 =
      ⟨[("a", ⟨[2], [5, 6]⟩)]⟩ ∧
    bindInputs ⟨[("a", zeroBuffer [2])]⟩ [("a", ⟨[2], [5, 6]⟩)] =
      bindInputs (Ctx.set ⟨[("a", zeroBuffer [2])]⟩ "a" ⟨[2], [5, 6]⟩) [] :=
  ⟨(C10_input_dict_preserved envFix 1 model4 ⟨[("a", ⟨[2], [5, 6]⟩)]⟩ false).1,
   ((C10_input_dict_preserved envFix 1 model4 ⟨[("a", ⟨[2], [5, 6]⟩)]⟩ false).2
      ⟨[("a", zeroBuffer [2])]⟩ "a" ⟨[2], [5, 6]⟩ (zeroBuffer [2]) []
      (by decide) (by decide)).1⟩

end Finn
